import Mathlib

/-!
Shallow embedding of the `simple_blockchain` Rust crate
(`src/helpers.rs`, `src/block.rs`, `src/blockchain.rs`, `src/error.rs`).

Machine integers are modelled with `Nat`/`Int`; Rust `String`s with Lean
`String`; a Rust panic (an `unwrap` on a failed hex decode, or the
unbounded mining loop not having returned yet) is modelled by `Option`,
with `none` standing for "no value was produced".
-/

set_option maxRecDepth 1000000
set_option maxHeartbeats 4000000

namespace SimpleBlockchain

/-- Truncation to 32 bits, used for every arithmetic step of SHA-256. -/
def trunc32 (n : Nat) : Nat := Nat.mod n 4294967296

/-- Right rotation of a 32-bit word by `r`, with `s = 32 - r` supplied. -/
def rotr2 (r s x : Nat) : Nat :=
  Nat.lor (Nat.shiftRight x r) (trunc32 (Nat.shiftLeft x s))

/-- SHA-256 big sigma 0. -/
def bsig0 (x : Nat) : Nat :=
  Nat.xor (Nat.xor (rotr2 2 30 x) (rotr2 13 19 x)) (rotr2 22 10 x)

/-- SHA-256 big sigma 1. -/
def bsig1 (x : Nat) : Nat :=
  Nat.xor (Nat.xor (rotr2 6 26 x) (rotr2 11 21 x)) (rotr2 25 7 x)

/-- SHA-256 small sigma 0. -/
def ssig0 (x : Nat) : Nat :=
  Nat.xor (Nat.xor (rotr2 7 25 x) (rotr2 18 14 x)) (Nat.shiftRight x 3)

/-- SHA-256 small sigma 1. -/
def ssig1 (x : Nat) : Nat :=
  Nat.xor (Nat.xor (rotr2 17 15 x) (rotr2 19 13 x)) (Nat.shiftRight x 10)

/-- SHA-256 choice function (the complement is taken on 32 bits). -/
def chf (x y z : Nat) : Nat :=
  Nat.xor (Nat.land x y) (Nat.land (Nat.xor x 4294967295) z)

/-- SHA-256 majority function. -/
def majf (x y z : Nat) : Nat :=
  Nat.xor (Nat.xor (Nat.land x y) (Nat.land x z)) (Nat.land y z)

/-- The eight 32-bit working variables of the SHA-256 compression. -/
structure H8 where
  a : Nat
  b : Nat
  c : Nat
  d : Nat
  e : Nat
  f : Nat
  g : Nat
  h : Nat
deriving DecidableEq

/-- The SHA-256 initial hash value. -/
def H0 : H8 :=
  ⟨0x6a09e667, 0xbb67ae85, 0x3c6ef372, 0xa54ff53a, 0x510e527f, 0x9b05688c, 0x1f83d9ab, 0x5be0cd19⟩

/-- Eight consecutive 32-bit values, used to chain the SHA-256 schedule
and rounds in small stages. -/
structure V8 where
  v0 : Nat
  v1 : Nat
  v2 : Nat
  v3 : Nat
  v4 : Nat
  v5 : Nat
  v6 : Nat
  v7 : Nat
deriving DecidableEq

/-- One message-schedule stage: the next eight words from a 16-word window. -/
def sched8 (x0 x1 x2 x3 x4 x5 x6 x7 x8 x9 x10 x11 x12 x13 x14 x15 : Nat) : V8 :=
  let x16 := trunc32 (Nat.add (Nat.add (Nat.add x0 (ssig0 x1)) x9) (ssig1 x14))
  let x17 := trunc32 (Nat.add (Nat.add (Nat.add x1 (ssig0 x2)) x10) (ssig1 x15))
  let x18 := trunc32 (Nat.add (Nat.add (Nat.add x2 (ssig0 x3)) x11) (ssig1 x16))
  let x19 := trunc32 (Nat.add (Nat.add (Nat.add x3 (ssig0 x4)) x12) (ssig1 x17))
  let x20 := trunc32 (Nat.add (Nat.add (Nat.add x4 (ssig0 x5)) x13) (ssig1 x18))
  let x21 := trunc32 (Nat.add (Nat.add (Nat.add x5 (ssig0 x6)) x14) (ssig1 x19))
  let x22 := trunc32 (Nat.add (Nat.add (Nat.add x6 (ssig0 x7)) x15) (ssig1 x20))
  let x23 := trunc32 (Nat.add (Nat.add (Nat.add x7 (ssig0 x8)) x16) (ssig1 x21))
  ⟨x16, x17, x18, x19, x20, x21, x22, x23⟩

/-- Eight SHA-256 rounds with the given round constants. -/
def rounds8 (k0 k1 k2 k3 k4 k5 k6 k7 : Nat)
    (a b c d e f g h u0 u1 u2 u3 u4 u5 u6 u7 : Nat) : H8 :=
  let t1y0 := trunc32 (Nat.add (Nat.add (Nat.add (Nat.add h (bsig1 e)) (chf e f g)) k0) u0)
  let t2y0 := trunc32 (Nat.add (bsig0 a) (majf a b c))
  let ay0 := trunc32 (Nat.add t1y0 t2y0)
  let ey0 := trunc32 (Nat.add d t1y0)
  let t1y1 := trunc32 (Nat.add (Nat.add (Nat.add (Nat.add g (bsig1 ey0)) (chf ey0 e f)) k1) u1)
  let t2y1 := trunc32 (Nat.add (bsig0 ay0) (majf ay0 a b))
  let ay1 := trunc32 (Nat.add t1y1 t2y1)
  let ey1 := trunc32 (Nat.add c t1y1)
  let t1y2 := trunc32 (Nat.add (Nat.add (Nat.add (Nat.add f (bsig1 ey1)) (chf ey1 ey0 e)) k2) u2)
  let t2y2 := trunc32 (Nat.add (bsig0 ay1) (majf ay1 ay0 a))
  let ay2 := trunc32 (Nat.add t1y2 t2y2)
  let ey2 := trunc32 (Nat.add b t1y2)
  let t1y3 := trunc32 (Nat.add (Nat.add (Nat.add (Nat.add e (bsig1 ey2)) (chf ey2 ey1 ey0)) k3) u3)
  let t2y3 := trunc32 (Nat.add (bsig0 ay2) (majf ay2 ay1 ay0))
  let ay3 := trunc32 (Nat.add t1y3 t2y3)
  let ey3 := trunc32 (Nat.add a t1y3)
  let t1y4 := trunc32 (Nat.add (Nat.add (Nat.add (Nat.add ey0 (bsig1 ey3)) (chf ey3 ey2 ey1)) k4) u4)
  let t2y4 := trunc32 (Nat.add (bsig0 ay3) (majf ay3 ay2 ay1))
  let ay4 := trunc32 (Nat.add t1y4 t2y4)
  let ey4 := trunc32 (Nat.add ay0 t1y4)
  let t1y5 := trunc32 (Nat.add (Nat.add (Nat.add (Nat.add ey1 (bsig1 ey4)) (chf ey4 ey3 ey2)) k5) u5)
  let t2y5 := trunc32 (Nat.add (bsig0 ay4) (majf ay4 ay3 ay2))
  let ay5 := trunc32 (Nat.add t1y5 t2y5)
  let ey5 := trunc32 (Nat.add ay1 t1y5)
  let t1y6 := trunc32 (Nat.add (Nat.add (Nat.add (Nat.add ey2 (bsig1 ey5)) (chf ey5 ey4 ey3)) k6) u6)
  let t2y6 := trunc32 (Nat.add (bsig0 ay5) (majf ay5 ay4 ay3))
  let ay6 := trunc32 (Nat.add t1y6 t2y6)
  let ey6 := trunc32 (Nat.add ay2 t1y6)
  let t1y7 := trunc32 (Nat.add (Nat.add (Nat.add (Nat.add ey3 (bsig1 ey6)) (chf ey6 ey5 ey4)) k7) u7)
  let t2y7 := trunc32 (Nat.add (bsig0 ay6) (majf ay6 ay5 ay4))
  let ay7 := trunc32 (Nat.add t1y7 t2y7)
  let ey7 := trunc32 (Nat.add ay3 t1y7)
  ⟨ay7, ay6, ay5, ay4, ey7, ey6, ey5, ey4⟩

/-- SHA-256 compression of one 16-word block into the running state:
six schedule stages and eight round stages of eight rounds each. -/
def compress (st : H8) (w0 w1 w2 w3 w4 w5 w6 w7 w8 w9 w10 w11 w12 w13 w14 w15 : Nat) :
    H8 :=
  let q0 := sched8 w0 w1 w2 w3 w4 w5 w6 w7 w8 w9 w10 w11 w12 w13 w14 w15
  let q1 := sched8 w8 w9 w10 w11 w12 w13 w14 w15 q0.v0 q0.v1 q0.v2 q0.v3 q0.v4 q0.v5 q0.v6 q0.v7
  let q2 := sched8 q0.v0 q0.v1 q0.v2 q0.v3 q0.v4 q0.v5 q0.v6 q0.v7 q1.v0 q1.v1 q1.v2 q1.v3 q1.v4 q1.v5 q1.v6 q1.v7
  let q3 := sched8 q1.v0 q1.v1 q1.v2 q1.v3 q1.v4 q1.v5 q1.v6 q1.v7 q2.v0 q2.v1 q2.v2 q2.v3 q2.v4 q2.v5 q2.v6 q2.v7
  let q4 := sched8 q2.v0 q2.v1 q2.v2 q2.v3 q2.v4 q2.v5 q2.v6 q2.v7 q3.v0 q3.v1 q3.v2 q3.v3 q3.v4 q3.v5 q3.v6 q3.v7
  let q5 := sched8 q3.v0 q3.v1 q3.v2 q3.v3 q3.v4 q3.v5 q3.v6 q3.v7 q4.v0 q4.v1 q4.v2 q4.v3 q4.v4 q4.v5 q4.v6 q4.v7
  let r0 := rounds8 1116352408 1899447441 3049323471 3921009573 961987163 1508970993 2453635748 2870763221
    st.a st.b st.c st.d st.e st.f st.g st.h w0 w1 w2 w3 w4 w5 w6 w7
  let r1 := rounds8 3624381080 310598401 607225278 1426881987 1925078388 2162078206 2614888103 3248222580
    r0.a r0.b r0.c r0.d r0.e r0.f r0.g r0.h w8 w9 w10 w11 w12 w13 w14 w15
  let r2 := rounds8 3835390401 4022224774 264347078 604807628 770255983 1249150122 1555081692 1996064986
    r1.a r1.b r1.c r1.d r1.e r1.f r1.g r1.h q0.v0 q0.v1 q0.v2 q0.v3 q0.v4 q0.v5 q0.v6 q0.v7
  let r3 := rounds8 2554220882 2821834349 2952996808 3210313671 3336571891 3584528711 113926993 338241895
    r2.a r2.b r2.c r2.d r2.e r2.f r2.g r2.h q1.v0 q1.v1 q1.v2 q1.v3 q1.v4 q1.v5 q1.v6 q1.v7
  let r4 := rounds8 666307205 773529912 1294757372 1396182291 1695183700 1986661051 2177026350 2456956037
    r3.a r3.b r3.c r3.d r3.e r3.f r3.g r3.h q2.v0 q2.v1 q2.v2 q2.v3 q2.v4 q2.v5 q2.v6 q2.v7
  let r5 := rounds8 2730485921 2820302411 3259730800 3345764771 3516065817 3600352804 4094571909 275423344
    r4.a r4.b r4.c r4.d r4.e r4.f r4.g r4.h q3.v0 q3.v1 q3.v2 q3.v3 q3.v4 q3.v5 q3.v6 q3.v7
  let r6 := rounds8 430227734 506948616 659060556 883997877 958139571 1322822218 1537002063 1747873779
    r5.a r5.b r5.c r5.d r5.e r5.f r5.g r5.h q4.v0 q4.v1 q4.v2 q4.v3 q4.v4 q4.v5 q4.v6 q4.v7
  let r7 := rounds8 1955562222 2024104815 2227730452 2361852424 2428436474 2756734187 3204031479 3329325298
    r6.a r6.b r6.c r6.d r6.e r6.f r6.g r6.h q5.v0 q5.v1 q5.v2 q5.v3 q5.v4 q5.v5 q5.v6 q5.v7
  ⟨trunc32 (Nat.add st.a r7.a), trunc32 (Nat.add st.b r7.b), trunc32 (Nat.add st.c r7.c),
   trunc32 (Nat.add st.d r7.d), trunc32 (Nat.add st.e r7.e), trunc32 (Nat.add st.f r7.f),
   trunc32 (Nat.add st.g r7.g), trunc32 (Nat.add st.h r7.h)⟩

/-- Fold the compression over the message, 16 words at a time. -/
def processWords : H8 → List Nat → H8
  | st, w0 :: w1 :: w2 :: w3 :: w4 :: w5 :: w6 :: w7 ::
        w8 :: w9 :: w10 :: w11 :: w12 :: w13 :: w14 :: w15 :: rest =>
    processWords
      (compress st w0 w1 w2 w3 w4 w5 w6 w7 w8 w9 w10 w11 w12 w13 w14 w15) rest
  | st, _ => st

/-- Pack big-endian bytes into 32-bit words. -/
def toWords : List Nat → List Nat
  | a :: b :: c :: d :: rest => (((a * 256 + b) * 256 + c) * 256 + d) :: toWords rest
  | _ => []

/-- Big-endian 64-bit encoding of a length in bits. -/
def be64 (n : Nat) : List Nat :=
  [(n >>> 56) % 256, (n >>> 48) % 256, (n >>> 40) % 256, (n >>> 32) % 256,
   (n >>> 24) % 256, (n >>> 16) % 256, (n >>> 8) % 256, n % 256]

/-- SHA-256 message padding. -/
def padMsg (msg : List Nat) : List Nat :=
  msg ++ 128 :: List.replicate ((119 - msg.length % 64) % 64) 0 ++ be64 (8 * msg.length)

/-- Big-endian bytes of a 32-bit word. -/
def wordBytes (w : Nat) : List Nat :=
  [(w >>> 24) % 256, (w >>> 16) % 256, (w >>> 8) % 256, w % 256]

/-- SHA-256 of a byte list, as the 32 digest bytes. -/
def sha256 (msg : List Nat) : List Nat :=
  let st := processWords H0 (toWords (padMsg msg))
  [st.a, st.b, st.c, st.d, st.e, st.f, st.g, st.h].flatMap wordBytes

/-- Lowercase hexadecimal digit for a value below 16: digits for values
below ten, then the letters from `a` onward. -/
def hexChar (n : Nat) : Char :=
  if n < 10 then Char.ofNat (48 + n) else Char.ofNat (87 + n)

/-- Two lowercase hex digits of one byte; embeds the per-byte step of Rust
`hex::encode`. -/
def byteHex (b : Nat) : List Char := [hexChar (b / 16), hexChar (b % 16)]

/-- Rust `hex::encode`: lowercase hex string of a byte slice. -/
def hexEncode (bs : List Nat) : String := String.mk (bs.flatMap byteHex)

/-- Value of one hex digit, accepting both cases, as `hex::decode` does. -/
def hexDigitVal (c : Char) : Option Nat :=
  if 48 ≤ c.toNat ∧ c.toNat ≤ 57 then some (c.toNat - 48)
  else if 97 ≤ c.toNat ∧ c.toNat ≤ 102 then some (c.toNat - 87)
  else if 65 ≤ c.toNat ∧ c.toNat ≤ 70 then some (c.toNat - 55)
  else none

/-- Rust `hex::decode` on a character list: pairs of hex digits to bytes,
failing on an odd length or a non-digit. -/
def hexDecodeChars : List Char → Option (List Nat)
  | [] => some []
  | [_] => none
  | c1 :: c2 :: rest =>
    match hexDigitVal c1, hexDigitVal c2, hexDecodeChars rest with
    | some v1, some v2, some bs => some ((v1 * 16 + v2) :: bs)
    | _, _, _ => none

/-- Rust `hex::decode` on a string. -/
def hexDecode (s : String) : Option (List Nat) := hexDecodeChars s.data

/-- JSON escaping of one character, as `serde_json` renders strings. -/
def jsonEscapeChar (c : Char) : List Char :=
  if c.toNat = 34 then ['\\', '"']
  else if c.toNat = 92 then ['\\', '\\']
  else if c.toNat < 32 then
    if c.toNat = 8 then ['\\', 'b']
    else if c.toNat = 9 then ['\\', 't']
    else if c.toNat = 10 then ['\\', 'n']
    else if c.toNat = 12 then ['\\', 'f']
    else if c.toNat = 13 then ['\\', 'r']
    else ['\\', 'u', '0', '0', hexChar (c.toNat / 16), hexChar (c.toNat % 16)]
  else [c]

/-- A JSON string literal, quotes included. -/
def jsonStr (s : String) : List Char :=
  '"' :: s.data.flatMap jsonEscapeChar ++ ['"']

/-- Decimal digits of a `Nat` (most significant first), driven by fuel. -/
def decChars : Nat → Nat → List Char
  | 0, _ => []
  | fuel + 1, n => if n = 0 then [] else decChars fuel (n / 10) ++ [Char.ofNat (48 + n % 10)]

/-- Decimal rendering of a `Nat`, as Rust formats a `u64`. -/
def natDec (n : Nat) : List Char := if n = 0 then ['0'] else decChars n n

/-- Decimal rendering of an `Int`, as Rust formats an `i64`. -/
def intDec (i : Int) : List Char := if i < 0 then '-' :: natDec i.natAbs else natDec i.natAbs

/-- One JSON key/value item. -/
def kv (key : String) (v : List Char) : List Char := jsonStr key ++ ':' :: v

/-- The serialized `serde_json::json!` object of `calculate_hash`
(`helpers.rs` lines 14-20): compact form, keys in the alphabetical order of
`serde_json`'s default `BTreeMap`. -/
def jsonContent (id : Nat) (timestamp : Int) (previous_hash data : String) (nonce : Nat) :
    List Char :=
  Char.ofNat 123 ::
    (kv "data" (jsonStr data) ++ ',' ::
      kv "id" (natDec id) ++ ',' ::
        kv "nonce" (natDec nonce) ++ ',' ::
          kv "previous_hash" (jsonStr previous_hash) ++ ',' ::
            kv "timestamp" (intDec timestamp)) ++ [Char.ofNat 125]

/-- UTF-8 bytes of one character. -/
def utf8Char (c : Char) : List Nat :=
  let n := c.toNat
  if n < 128 then [n]
  else if n < 2048 then [192 + n / 64, 128 + n % 64]
  else if n < 65536 then [224 + n / 4096, 128 + (n / 64) % 64, 128 + n % 64]
  else [240 + n / 262144, 128 + (n / 4096) % 64, 128 + (n / 64) % 64, 128 + n % 64]

/-- UTF-8 bytes of a character list. -/
def utf8 (cs : List Char) : List Nat := cs.flatMap utf8Char

/-- Embeds `helpers.rs` `calculate_hash`: SHA-256 of the serialized JSON
object of the five fields, hex-encoded in lowercase. -/
def calculate_hash (id : Nat) (timestamp : Int) (previous_hash data : String) (nonce : Nat) :
    String :=
  hexEncode (sha256 (utf8 (jsonContent id timestamp previous_hash data nonce)))

/-- Whether the first list is an initial segment of the second. -/
def listPre (p s : List Char) : Bool :=
  match p, s with
  | [], _ => true
  | x :: xs, y :: ys => x == y && listPre xs ys
  | _ :: _, [] => false

/-- Rust `str::starts_with` on our string model. -/
def strStartsWith (s p : String) : Bool := listPre p.data s.data

/-- The two-character difficulty constant declared at the top of `helpers.rs`. -/
def DIFFICULTY : String := "00"

/-- Binary digits of `n`, least significant first, driven by fuel;
empty on zero. -/
def bitsLE : Nat → Nat → List Char
  | 0, _ => []
  | fuel + 1, n =>
    if n = 0 then [] else (if n % 2 = 1 then '1' else '0') :: bitsLE fuel (n / 2)

/-- Rust `format!` with the `b` specifier on one byte: shortest binary form,
`"0"` for zero. -/
def natBin (n : Nat) : List Char := if n = 0 then ['0'] else (bitsLE n n).reverse

/-- Embeds `helpers.rs` `binary_string_of`: hex-decode the hash and
concatenate each byte's shortest binary rendering; `none` models the panic
of the `unwrap` when the hash is not decodable hex. -/
def binary_string_of (hash : String) : Option String :=
  (hexDecode hash).map fun bytes => String.mk (bytes.flatMap natBin)

/-- Embeds the loop of `helpers.rs` `mine_hash`, with explicit fuel: try
nonces from `nonce` upward until the binary string of the digest starts
with the difficulty constant. `none` models both a hex-decode panic and
the loop still running after `fuel` attempts. -/
def mineFrom (id : Nat) (ts : Int) (previous_hash data : String) :
    Nat → Nat → Option (Nat × String)
  | 0, _ => none
  | fuel + 1, nonce =>
    let hash := calculate_hash id ts previous_hash data nonce
    match binary_string_of hash with
    | none => none
    | some bin =>
      if strStartsWith bin DIFFICULTY then some (nonce, hash)
      else mineFrom id ts previous_hash data fuel (nonce + 1)

/-- Embeds `helpers.rs` `mine_hash`: the nonce search starts at 0. -/
def mine_hash (fuel id : Nat) (ts : Int) (previous_hash data : String) :
    Option (Nat × String) :=
  mineFrom id ts previous_hash data fuel 0

/-- Embeds the `Block` struct of `block.rs`. -/
structure Block where
  id : Nat
  hash : String
  previous_hash : String
  timestamp : Int
  data : String
  nonce : Nat
deriving DecidableEq

/-- Embeds the `BlockchainError` enum of `error.rs`. -/
inductive BlockchainError where
  | InvalidChainLength
  | InvalidBlock
deriving DecidableEq

/-- Embeds `Blockchain::is_block_valid` (`blockchain.rs` lines 51-63):
recompute the digest, then the four short-circuited checks; `none` models
the panic were `binary_string_of` to fail. -/
def is_block_valid (block previous_block : Block) : Option Bool :=
  let hash := calculate_hash block.id block.timestamp block.previous_hash block.data block.nonce
  if block.hash ≠ hash then some false
  else if block.previous_hash ≠ previous_block.hash then some false
  else
    match binary_string_of block.hash with
    | none => none
    | some bin =>
      if !strStartsWith bin DIFFICULTY then some false
      else if block.id ≠ previous_block.id + 1 then some false
      else some true

/-- Embeds `Blockchain::add_block` (`blockchain.rs` lines 105-115). The
result pairs the returned `Result` with the final block sequence; `none`
models a validator panic. -/
def add_block (blocks : List Block) (block : Block) :
    Option (Except BlockchainError Unit × List Block) :=
  match blocks.getLast? with
  | some tail =>
    match is_block_valid block tail with
    | none => none
    | some true => some (Except.ok (), blocks ++ [block])
    | some false => some (Except.error BlockchainError.InvalidBlock, blocks)
  | none => some (Except.error BlockchainError.InvalidChainLength, blocks)

/-- The `all` loop of `Blockchain::is_chain_valid`: validate each block
against its predecessor, short-circuiting on the first failure. -/
def validPairs : Block → List Block → Option Bool
  | _, [] => some true
  | prev, b :: rest =>
    match is_block_valid b prev with
    | none => none
    | some false => some false
    | some true => validPairs b rest

/-- Embeds `Blockchain::is_chain_valid` (`blockchain.rs` lines 137-145):
`false` for length at most one, else every block from position 1 onward is
validated against its predecessor. -/
def is_chain_valid (blocks : List Block) : Option Bool :=
  if blocks.length ≤ 1 then some false
  else
    match blocks with
    | [] => some false
    | b0 :: rest => validPairs b0 rest

/-- Embeds `Blockchain::choose_chain` (`blockchain.rs` lines 176-190): the
two sequential replacements, both conditions read the validity flags
computed up front. -/
def choose_chain (localBlocks remoteBlocks : List Block) : Option (List Block) :=
  match is_chain_valid localBlocks, is_chain_valid remoteBlocks with
  | some is_local_valid, some is_remote_valid =>
    let blocks1 :=
      if is_local_valid && is_remote_valid
          && decide (remoteBlocks.length > localBlocks.length) then
        remoteBlocks
      else localBlocks
    some (if is_remote_valid && !is_local_valid then remoteBlocks else blocks1)
  | _, _ => none

/-- Embeds `Blockchain::genesis` (`blockchain.rs` lines 44-49) together
with the `Block::new` it calls (`block.rs` lines 32-36); the wall-clock
timestamp is a parameter, and the mining fuel makes the unbounded loop a
total function. -/
def genesisOp (fuel : Nat) (ts : Int) (blocks : List Block) :
    Option (Except BlockchainError Unit × List Block) :=
  if blocks.length > 0 then some (Except.error BlockchainError.InvalidChainLength, blocks)
  else
    match mine_hash fuel 0 ts "genesis" "genesis!" with
    | none => none
    | some (nonce, hash) =>
      some (Except.ok (), blocks ++ [⟨0, hash, "genesis", ts, "genesis!", nonce⟩])

/-! ### Test fixtures, taken verbatim from the `blockchain.rs` tests -/

/-- The genesis fixture pushed directly by the `blockchain.rs` tests. -/
def gBlock : Block :=
  ⟨0, "0000dbeb9e573d5382c63fd9a222c3720a4341b06416348fc5bbc0d19380a248", "genesis",
    1643223000, "genesis!", 44475⟩

/-- The valid successor fixture of the `blockchain.rs` tests. -/
def nextBlock : Block :=
  ⟨1, "0000cc07887fb749c99974e8e93debb64e205086f6d0962ef17bf6f0bb295f3e",
    "0000dbeb9e573d5382c63fd9a222c3720a4341b06416348fc5bbc0d19380a248",
    1643223669, "next", 236492⟩

/-- The invalid-block fixture of the `blockchain.rs` tests. -/
def badBlock : Block :=
  ⟨1, "0000ff", "not_the_previous_hash", 1643223669, "next", 2836⟩

/-- A block whose hash field is not decodable hexadecimal. -/
def badHexBlock : Block :=
  ⟨1, "zz", "0000dbeb9e573d5382c63fd9a222c3720a4341b06416348fc5bbc0d19380a248", 0, "next", 0⟩

/-! ### Hex round-trip and digest facts -/

/-- Each byte rendered by `wordBytes` is below 256. -/
theorem wordBytes_lt {w b : Nat} (hb : b ∈ wordBytes w) : b < 256 := by
  simp only [wordBytes, List.mem_cons, List.not_mem_nil, or_false] at hb
  rcases hb with rfl | rfl | rfl | rfl <;> exact Nat.mod_lt _ (by norm_num)

/-- Every byte of a SHA-256 digest is below 256. -/
theorem sha256_lt (msg : List Nat) : ∀ b ∈ sha256 msg, b < 256 := by
  intro b hb
  simp only [sha256, List.mem_flatMap] at hb
  obtain ⟨w, -, hw⟩ := hb
  exact wordBytes_lt hw

/-- Hex digits produced by `hexChar` decode back to their value. -/
theorem hexVal_hexChar : ∀ v, v < 16 → hexDigitVal (hexChar v) = some v := by decide

/-- Decoding inverts the per-byte hex encoding. -/
theorem hexDecodeChars_flatMap_byteHex :
    ∀ bs : List Nat, (∀ b ∈ bs, b < 256) → hexDecodeChars (bs.flatMap byteHex) = some bs := by
  intro bs
  induction bs with
  | nil => intro _; rfl
  | cons b rest ih =>
    intro hlt
    have hb : b < 256 := hlt b (List.mem_cons_self _ _)
    have h1 : hexDigitVal (hexChar (b / 16)) = some (b / 16) := hexVal_hexChar _ (by omega)
    have h2 : hexDigitVal (hexChar (b % 16)) = some (b % 16) := hexVal_hexChar _ (by omega)
    have hrest := ih fun x hx => hlt x (List.mem_cons_of_mem _ hx)
    show hexDecodeChars (hexChar (b / 16) :: hexChar (b % 16) :: rest.flatMap byteHex) =
      some (b :: rest)
    simp only [hexDecodeChars, h1, h2, hrest]
    have hdm : b / 16 * 16 + b % 16 = b := by omega
    rw [hdm]

/-- Decoding inverts `hexEncode` on byte lists. -/
theorem hexDecode_hexEncode (bs : List Nat) (h : ∀ b ∈ bs, b < 256) :
    hexDecode (hexEncode bs) = some bs :=
  hexDecodeChars_flatMap_byteHex bs h

/-- The binary string of an encoded SHA-256 digest always exists. -/
theorem binary_string_of_hexEncode_sha256 (msg : List Nat) :
    binary_string_of (hexEncode (sha256 msg)) =
      some (String.mk ((sha256 msg).flatMap natBin)) := by
  simp [binary_string_of, hexDecode_hexEncode _ (sha256_lt msg)]

/-- The binary string of any value of `calculate_hash` exists. -/
theorem binary_string_of_calculate_hash (i : Nat) (t : Int) (p d : String) (n : Nat) :
    binary_string_of (calculate_hash i t p d n) =
      some (String.mk ((sha256 (utf8 (jsonContent i t p d n))).flatMap natBin)) :=
  binary_string_of_hexEncode_sha256 _

/-- The hex decoding of any value of `calculate_hash` exists. -/
theorem hexDecode_calculate_hash (i : Nat) (t : Int) (p d : String) (n : Nat) :
    hexDecode (calculate_hash i t p d n) = some (sha256 (utf8 (jsonContent i t p d n))) :=
  hexDecode_hexEncode _ (sha256_lt _)

/-! ### The validator -/

/-- The four conditions of the specification's validator contract, spelled
out for comparison with `is_block_valid`. -/
def validatorChecks (block previous_block : Block) : Prop :=
  block.hash = calculate_hash block.id block.timestamp block.previous_hash block.data
      block.nonce ∧
  block.previous_hash = previous_block.hash ∧
  (∃ bin, binary_string_of block.hash = some bin ∧ strStartsWith bin DIFFICULTY = true) ∧
  block.id = previous_block.id + 1

/-- C1: the validator returns `some true` exactly when all four checks of
the specification hold, and returns `some false` whenever any of them
fails. -/
theorem validator_four_checks (block previous_block : Block) :
    (is_block_valid block previous_block = some true ↔
      validatorChecks block previous_block) ∧
    (¬ validatorChecks block previous_block →
      is_block_valid block previous_block = some false) := by
  obtain ⟨S, hS⟩ : ∃ S,
      binary_string_of (calculate_hash block.id block.timestamp block.previous_hash
        block.data block.nonce) = some S :=
    ⟨_, binary_string_of_calculate_hash _ _ _ _ _⟩
  unfold is_block_valid validatorChecks
  generalize hD : calculate_hash block.id block.timestamp block.previous_hash
    block.data block.nonce = D at hS ⊢
  by_cases h1 : block.hash = D
  · by_cases h2 : block.previous_hash = previous_block.hash
    · by_cases h4 : block.id = previous_block.id + 1
      · cases hsw : strStartsWith S DIFFICULTY
        · constructor
          · simp [h1, h2, h4, hS, hsw]
          · intro _
            simp [h1, h2, h4, hS, hsw]
        · constructor
          · simp [h1, h2, h4, hS, hsw]
          · intro hn
            exact absurd ⟨h1, h2, ⟨S, by rw [h1]; exact hS, hsw⟩, h4⟩ hn
      · constructor
        · simp [h1, h2, h4, hS]
        · intro _
          simp [h1, h2, h4, hS]
    · constructor
      · simp [h1, h2, hS]
      · intro _
        simp [h1, h2, hS]
  · constructor
    · simp [h1]
    · intro _
      simp [h1]

/-- The validator always produces a value: the panic branch is
unreachable, because the third check is only reached once the block's hash
equals a digest, which always hex-decodes. -/
theorem is_block_valid_isSome (block previous_block : Block) :
    (is_block_valid block previous_block).isSome = true := by
  obtain ⟨S, hS⟩ : ∃ S,
      binary_string_of (calculate_hash block.id block.timestamp block.previous_hash
        block.data block.nonce) = some S :=
    ⟨_, binary_string_of_calculate_hash _ _ _ _ _⟩
  unfold is_block_valid
  generalize calculate_hash block.id block.timestamp block.previous_hash
    block.data block.nonce = D at hS ⊢
  by_cases h1 : block.hash = D
  · by_cases h2 : block.previous_hash = previous_block.hash
    · cases hsw : strStartsWith S DIFFICULTY
      · simp [h1, h2, hS, hsw]
      · by_cases h4 : block.id = previous_block.id + 1
        · simp [h1, h2, h4, hS, hsw]
        · simp [h1, h2, h4, hS, hsw]
    · simp [h1, h2, hS]
  · simp [h1]

/-- C4: the validator is total — it always produces a value (never the
`none` that models a panic), and a hash that is not decodable hexadecimal
makes it return `some false`. -/
theorem validator_total (block previous_block : Block) :
    (is_block_valid block previous_block).isSome = true ∧
    (hexDecode block.hash = none → is_block_valid block previous_block = some false) := by
  refine ⟨is_block_valid_isSome block previous_block, ?_⟩
  intro hnone
  unfold is_block_valid
  rw [if_pos]
  intro h1
  rw [h1, hexDecode_calculate_hash] at hnone
  cases hnone

/-- Witness for C4 at a block whose hash field is the undecodable string
of `badHexBlock`. -/
theorem validator_total_witness :
    hexDecode badHexBlock.hash = none ∧ is_block_valid badHexBlock gBlock = some false :=
  ⟨rfl, (validator_total badHexBlock gBlock).2 rfl⟩

/-- Witness for C1 at the invalid-block fixture of the tests. -/
theorem validator_four_checks_witness :
    is_block_valid badBlock gBlock = some false :=
  (validator_four_checks badBlock gBlock).2 fun hc => absurd hc.1 (by decide)

/-- C7: `calculate_hash` is a function of its five inputs alone, and
reproduces the test vector of `helpers.rs`. -/
theorem calculate_hash_deterministic_vector :
    (∀ (id : Nat) (ts : Int) (previous_hash data : String) (nonce : Nat),
      calculate_hash id ts previous_hash data nonce =
        calculate_hash id ts previous_hash data nonce) ∧
    calculate_hash 69 1643220097
        "0000f816a87f806bb0073dcf026a64fb40c946b5abee2573702828694d5b4c43" "foo" 9386 =
      "00007751f1b92a8ac1bdc88407e7a85b4c0dd59313d8fa78ae2208dbcaaad604" :=
  ⟨fun _ _ _ _ _ => rfl, by rfl⟩

/-! ### The binary rendering -/

/-- Value of a most-significant-first binary digit string; states what a
binary rendering denotes. -/
def binValue (cs : List Char) : Nat :=
  cs.foldl (fun a c => 2 * a + (if c = '1' then 1 else 0)) 0

/-- The bit list of zero is empty for any fuel. -/
theorem bitsLE_zero (fuel : Nat) : bitsLE fuel 0 = [] := by cases fuel <;> rfl

/-- For a positive number within fuel, the most significant bit is one. -/
theorem bitsLE_msb : ∀ fuel n, 0 < n → n ≤ fuel → ∃ l, bitsLE fuel n = l ++ ['1'] := by
  intro fuel
  induction fuel with
  | zero => intro n h1 h2; omega
  | succ f ih =>
    intro n h1 h2
    by_cases hh : n / 2 = 0
    · have hn1 : n = 1 := by omega
      subst hn1
      exact ⟨[], by simp [bitsLE, bitsLE_zero]⟩
    · obtain ⟨l, hl⟩ := ih (n / 2) (by omega) (by omega)
      refine ⟨(if n % 2 = 1 then '1' else '0') :: l, ?_⟩
      simp only [bitsLE, if_neg (by omega : ¬ n = 0), hl, List.cons_append]

/-- Folding the bit digits back recovers the number. -/
theorem bitsLE_foldr : ∀ fuel n, n ≤ fuel →
    (bitsLE fuel n).foldr (fun c a => 2 * a + (if c = '1' then 1 else 0)) 0 = n := by
  intro fuel
  induction fuel with
  | zero => intro n hn; interval_cases n; rfl
  | succ f ih =>
    intro n hn
    by_cases h0 : n = 0
    · subst h0; rfl
    · have hrec := ih (n / 2) (by omega)
      simp only [bitsLE, if_neg h0, List.foldr_cons, hrec]
      by_cases hp : n % 2 = 1
      · rw [if_pos hp, if_pos rfl]
        omega
      · rw [if_neg hp, if_neg (by decide : ¬ ('0' = '1'))]
        omega

/-- The rendering of `natBin` evaluates back to its input. -/
theorem natBin_val (n : Nat) : binValue (natBin n) = n := by
  by_cases h : n = 0
  · subst h; rfl
  · unfold natBin binValue
    rw [if_neg h, List.foldl_reverse]
    exact bitsLE_foldr n n le_rfl

/-- The rendering of a nonzero byte starts with a one bit. -/
theorem natBin_head_one (n : Nat) (h : n ≠ 0) : ∃ l, natBin n = '1' :: l := by
  obtain ⟨l, hl⟩ := bitsLE_msb n n (Nat.pos_of_ne_zero h) le_rfl
  exact ⟨l.reverse, by simp [natBin, h, hl]⟩

/-- C9: `binary_string_of` decodes the hex string and concatenates each
byte's shortest unpadded binary form: the rendering evaluates back to the
byte, has no leading zero for nonzero bytes, byte 15 renders as `"1111"`,
and `"ff"` renders as `"11111111"`. -/
theorem binary_string_unpadded :
    (∀ s bytes, hexDecode s = some bytes →
      binary_string_of s = some (String.mk (bytes.flatMap natBin))) ∧
    (∀ b, binValue (natBin b) = b) ∧
    (∀ b, b ≠ 0 → ∃ l, natBin b = '1' :: l) ∧
    natBin 15 = ['1', '1', '1', '1'] ∧
    binary_string_of "ff" = some "11111111" := by
  refine ⟨?_, natBin_val, natBin_head_one, by decide, by rfl⟩
  intro s bytes h
  simp [binary_string_of, h]

/-- Witness for C9 at the test vector `"ff"`. -/
theorem binary_string_unpadded_witness :
    hexDecode "ff" = some [255] ∧
    binary_string_of "ff" = some (String.mk ([255].flatMap natBin)) :=
  ⟨rfl, binary_string_unpadded.1 "ff" [255] rfl⟩

/-! ### The difficulty check over the unpadded rendering -/

/-- Inversion of one decoding step of `hexDecodeChars`. -/
theorem hexDecodeChars_cons_inv :
    ∀ {cs : List Char} {b : Nat} {bs : List Nat}, hexDecodeChars cs = some (b :: bs) →
      ∃ c1 c2 rest v1 v2, cs = c1 :: c2 :: rest ∧ hexDigitVal c1 = some v1 ∧
        hexDigitVal c2 = some v2 ∧ b = v1 * 16 + v2 ∧ hexDecodeChars rest = some bs := by
  intro cs b bs h
  match cs with
  | [] => exact absurd h (by simp [hexDecodeChars])
  | [c] => exact absurd h (by simp [hexDecodeChars])
  | c1 :: c2 :: rest =>
    simp only [hexDecodeChars] at h
    rcases hv1 : hexDigitVal c1 with - | v1 <;> rw [hv1] at h
    · cases h
    rcases hv2 : hexDigitVal c2 with - | v2 <;> rw [hv2] at h
    · cases h
    rcases hr : hexDecodeChars rest with - | l <;> rw [hr] at h
    · cases h
    simp only [Option.some.injEq, List.cons.injEq] at h
    exact ⟨c1, c2, rest, v1, v2, rfl, hv1, hv2, h.1.symm, by rw [hr, h.2]⟩

/-- A hex digit decodes to zero exactly when it is the character zero. -/
theorem hexDigitVal_zero_iff (c : Char) : hexDigitVal c = some 0 ↔ c = '0' := by
  constructor
  · intro h
    unfold hexDigitVal at h
    split_ifs at h with h1 h2 h3
    · injection h with hv
      have hc : c.toNat = 48 := by omega
      calc c = Char.ofNat c.toNat := (Char.ofNat_toNat c).symm
        _ = '0' := by rw [hc]
    · injection h with hv; omega
    · injection h with hv; omega
  · rintro rfl; rfl

/-- The two-character difficulty matched against the unpadded rendering
demands exactly that the first two bytes are zero. -/
theorem startsWith00_iff (b0 b1 : Nat) (t : List Char) :
    listPre ['0', '0'] (natBin b0 ++ (natBin b1 ++ t)) = true ↔ b0 = 0 ∧ b1 = 0 := by
  by_cases h0 : b0 = 0
  · subst h0
    by_cases h1 : b1 = 0
    · subst h1
      simp [show listPre ['0', '0'] (natBin 0 ++ (natBin 0 ++ t)) = true from rfl]
    · obtain ⟨l, hl⟩ := natBin_head_one b1 h1
      rw [hl]
      rw [show listPre ['0', '0'] (natBin 0 ++ ('1' :: l ++ t)) = false from rfl]
      simp [h1]
  · obtain ⟨l, hl⟩ := natBin_head_one b0 h0
    rw [hl]
    rw [show listPre ['0', '0'] (('1' :: l) ++ (natBin b1 ++ t)) = false from rfl]
    simp [h0]

/-- C10: for a hash that hex-decodes to at least two bytes, the binary
string starts with the difficulty constant exactly when the first two
decoded bytes are both zero, which in turn holds exactly when the hash
string begins with four zero hex digits — so the two-character difficulty
demands sixteen leading zero bits. -/
theorem difficulty_first_two_bytes :
    ∀ (h : String) (b0 b1 : Nat) (rest : List Nat),
      hexDecode h = some (b0 :: b1 :: rest) →
      ((∃ bin, binary_string_of h = some bin ∧ strStartsWith bin DIFFICULTY = true) ↔
        (b0 = 0 ∧ b1 = 0)) ∧
      ((b0 = 0 ∧ b1 = 0) ↔ strStartsWith h "0000" = true) := by
  intro h b0 b1 rest hdec
  obtain ⟨c1, c2, r1, v1, v2, hcs, hv1, hv2, hb0, hr1⟩ := hexDecodeChars_cons_inv hdec
  obtain ⟨c3, c4, r2, v3, v4, hcs2, hv3, hv4, hb1, -⟩ := hexDecodeChars_cons_inv hr1
  constructor
  · have hbin : binary_string_of h = some (String.mk ((b0 :: b1 :: rest).flatMap natBin)) := by
      simp [binary_string_of, hdec]
    rw [hbin]
    simp only [Option.some.injEq, exists_eq_left']
    show listPre ['0', '0'] (natBin b0 ++ (natBin b1 ++ rest.flatMap natBin)) = true ↔ _
    exact startsWith00_iff b0 b1 _
  · have hdata : h.data = c1 :: c2 :: c3 :: c4 :: r2 := by rw [hcs, hcs2]
    constructor
    · rintro ⟨h0, h1⟩
      have hv1z : hexDigitVal c1 = some 0 := by rw [hv1]; congr 1; omega
      have hv2z : hexDigitVal c2 = some 0 := by rw [hv2]; congr 1; omega
      have hv3z : hexDigitVal c3 = some 0 := by rw [hv3]; congr 1; omega
      have hv4z : hexDigitVal c4 = some 0 := by rw [hv4]; congr 1; omega
      have e1 := (hexDigitVal_zero_iff c1).mp hv1z
      have e2 := (hexDigitVal_zero_iff c2).mp hv2z
      have e3 := (hexDigitVal_zero_iff c3).mp hv3z
      have e4 := (hexDigitVal_zero_iff c4).mp hv4z
      subst e1 e2 e3 e4
      show listPre ['0', '0', '0', '0'] h.data = true
      rw [hdata]
      rfl
    · intro hsw
      have hlp : listPre ['0', '0', '0', '0'] h.data = true := hsw
      rw [hdata] at hlp
      simp only [listPre, Bool.and_eq_true, beq_iff_eq] at hlp
      obtain ⟨e1, e2, e3, e4, -⟩ := hlp
      rw [← e1] at hv1
      rw [← e2] at hv2
      rw [← e3] at hv3
      rw [← e4] at hv4
      have : (some 0 : Option Nat) = some v1 := by rw [← hv1]; rfl
      have h2 : (some 0 : Option Nat) = some v2 := by rw [← hv2]; rfl
      have h3 : (some 0 : Option Nat) = some v3 := by rw [← hv3]; rfl
      have h4 : (some 0 : Option Nat) = some v4 := by rw [← hv4]; rfl
      injection this with z1
      injection h2 with z2
      injection h3 with z3
      injection h4 with z4
      omega

/-- Witness for C10 at the six-digit hash `"0000ff"`. -/
theorem difficulty_first_two_bytes_witness :
    hexDecode "0000ff" = some [0, 0, 255] ∧
    ((∃ bin, binary_string_of "0000ff" = some bin ∧ strStartsWith bin DIFFICULTY = true) ↔
      ((0 : Nat) = 0 ∧ (0 : Nat) = 0)) ∧
    (((0 : Nat) = 0 ∧ (0 : Nat) = 0) ↔ strStartsWith "0000ff" "0000" = true) :=
  ⟨rfl, (difficulty_first_two_bytes "0000ff" 0 0 [255] rfl).1,
    (difficulty_first_two_bytes "0000ff" 0 0 [255] rfl).2⟩

/-! ### Chain validation -/

/-- The pairwise validation loop never produces the panic value. -/
theorem validPairs_isSome : ∀ (rest : List Block) (prev : Block),
    (validPairs prev rest).isSome = true := by
  intro rest
  induction rest with
  | nil => intro prev; rfl
  | cons b bs ih =>
    intro prev
    unfold validPairs
    have h := is_block_valid_isSome b prev
    rcases hv : is_block_valid b prev with - | bv
    · rw [hv] at h; cases h
    · cases bv
      · rfl
      · exact ih b

/-- Whole-chain validation never produces the panic value. -/
theorem is_chain_valid_isSome (blocks : List Block) :
    (is_chain_valid blocks).isSome = true := by
  unfold is_chain_valid
  by_cases h : blocks.length ≤ 1
  · rw [if_pos h]; rfl
  · rw [if_neg h]
    rcases blocks with - | ⟨b0, rest⟩
    · rfl
    · exact validPairs_isSome rest b0

/-- The pairwise loop succeeds exactly when consecutive blocks validate. -/
theorem validPairs_iff_chain : ∀ (rest : List Block) (prev : Block),
    validPairs prev rest = some true ↔
      List.Chain' (fun p b => is_block_valid b p = some true) (prev :: rest) := by
  intro rest
  induction rest with
  | nil => intro prev; simp [validPairs]
  | cons b bs ih =>
    intro prev
    rw [List.chain'_cons]
    unfold validPairs
    rcases hv : is_block_valid b prev with - | bv
    · simp [hv]
    · cases bv
      · simp [hv]
      · simp [hv, ih b]

/-- C3: a chain of length at most one is not valid, and a longer chain is
valid exactly when every block from position 1 onward passes the validator
against its immediate predecessor. -/
theorem chain_valid_iff (blocks : List Block) :
    (blocks.length ≤ 1 → is_chain_valid blocks = some false) ∧
    (1 < blocks.length →
      (is_chain_valid blocks = some true ↔
        ∀ i (h : i + 1 < blocks.length),
          is_block_valid (blocks.get ⟨i + 1, h⟩)
            (blocks.get ⟨i, Nat.lt_of_succ_lt h⟩) = some true)) := by
  constructor
  · intro h
    unfold is_chain_valid
    rw [if_pos h]
  · intro hlen
    unfold is_chain_valid
    rw [if_neg (by omega)]
    rcases blocks with - | ⟨b0, rest⟩
    · simp at hlen
    · rw [validPairs_iff_chain, List.chain'_iff_get]
      constructor
      · intro hc i hi
        exact hc i (by simpa using hi)
      · intro hg i hi
        exact hg i (by simpa using hi)

/-- Witness for C3: the two-block fixture chain is valid, a lone genesis
is not, and part 1 of the chain is validated against genesis. -/
theorem chain_valid_iff_witness :
    is_chain_valid [gBlock] = some false ∧
    is_chain_valid [gBlock, nextBlock] = some true ∧
    is_block_valid nextBlock gBlock = some true := by
  have hone : is_chain_valid [gBlock] = some false :=
    (chain_valid_iff [gBlock]).1 (by decide)
  have hcv : is_chain_valid [gBlock, nextBlock] = some true := by rfl
  have hnext := ((chain_valid_iff [gBlock, nextBlock]).2 (by decide)).mp hcv 0 (by decide)
  exact ⟨hone, hcv, hnext⟩

/-- C2: the fork choice replaces the local sequence with the remote one
exactly when both chains are valid and the remote is strictly longer, or
the remote is valid and the local is not; otherwise the local sequence is
kept. -/
theorem choose_chain_spec (localBlocks remoteBlocks : List Block) :
    ∃ lv rv, is_chain_valid localBlocks = some lv ∧
      is_chain_valid remoteBlocks = some rv ∧
      choose_chain localBlocks remoteBlocks =
        some (if (lv = true ∧ rv = true ∧ localBlocks.length < remoteBlocks.length) ∨
            (rv = true ∧ lv = false) then remoteBlocks else localBlocks) := by
  obtain ⟨lv, hl⟩ := Option.isSome_iff_exists.mp (is_chain_valid_isSome localBlocks)
  obtain ⟨rv, hr⟩ := Option.isSome_iff_exists.mp (is_chain_valid_isSome remoteBlocks)
  refine ⟨lv, rv, hl, hr, ?_⟩
  unfold choose_chain
  rw [hl, hr]
  by_cases hlen : localBlocks.length < remoteBlocks.length <;>
    cases lv <;> cases rv <;> simp [hlen]

/-- C5: appending fails with `InvalidChainLength` on the empty chain,
fails with `InvalidBlock` when the validator rejects the block against the
tail, and otherwise appends the block, growing the sequence by one; the
sequence is unchanged on either failure. -/
theorem add_block_spec (blocks : List Block) (block : Block) :
    (blocks = [] → add_block blocks block =
      some (Except.error BlockchainError.InvalidChainLength, blocks)) ∧
    (∀ tail, blocks.getLast? = some tail →
      (is_block_valid block tail = some false →
        add_block blocks block = some (Except.error BlockchainError.InvalidBlock, blocks)) ∧
      (is_block_valid block tail = some true →
        add_block blocks block = some (Except.ok (), blocks ++ [block]) ∧
        (blocks ++ [block]).length = blocks.length + 1)) := by
  constructor
  · rintro rfl; rfl
  · intro tail htail
    constructor
    · intro hv
      simp only [add_block, htail, hv]
    · intro hv
      refine ⟨?_, by simp⟩
      simp only [add_block, htail, hv]

/-- Witness for C5: appending the valid fixture block to the one-block
fixture chain succeeds and yields the two-block chain. -/
theorem add_block_spec_witness :
    [gBlock].getLast? = some gBlock ∧ is_block_valid nextBlock gBlock = some true ∧
    add_block [gBlock] nextBlock = some (Except.ok (), [gBlock, nextBlock]) := by
  have hv : is_block_valid nextBlock gBlock = some true := by rfl
  exact ⟨rfl, hv, (((add_block_spec [gBlock] nextBlock).2 gBlock rfl).2 hv).1⟩

/-! ### Mining and genesis -/

/-- A successful mining run returns the digest of the returned nonce, and
that digest's binary string starts with the difficulty constant. -/
theorem mineFrom_some :
    ∀ (fuel start nonce : Nat) (hash : String) (id : Nat) (ts : Int) (p d : String),
      mineFrom id ts p d fuel start = some (nonce, hash) →
      hash = calculate_hash id ts p d nonce ∧
      ∃ bin, binary_string_of hash = some bin ∧ strStartsWith bin DIFFICULTY = true := by
  intro fuel
  induction fuel with
  | zero => intro start nonce hash id ts p d hm; cases hm
  | succ f ih =>
    intro start nonce hash id ts p d hm
    simp only [mineFrom] at hm
    rcases hb : binary_string_of (calculate_hash id ts p d start) with - | bin <;>
      simp only [hb] at hm
    · cases hm
    · by_cases hsw : strStartsWith bin DIFFICULTY = true
      · rw [if_pos hsw] at hm
        obtain ⟨h1, h2⟩ : start = nonce ∧ calculate_hash id ts p d start = hash := by
          simpa using hm
        subst h1
        subst h2
        exact ⟨rfl, bin, hb, hsw⟩
      · rw [if_neg hsw] at hm
        exact ih _ _ _ _ _ _ _ hm

/-- C6: genesis fails with `InvalidChainLength` exactly on a non-empty
chain, leaving it unchanged; on the empty chain a successful mining run
appends the single genesis block with index 0, previous hash `"genesis"`,
data `"genesis!"`, and the mined nonce and hash, whose binary string
starts with the difficulty constant. -/
theorem genesis_spec (fuel : Nat) (ts : Int) (blocks : List Block) :
    (blocks ≠ [] → genesisOp fuel ts blocks =
      some (Except.error BlockchainError.InvalidChainLength, blocks)) ∧
    (blocks = [] → ∀ nonce hash,
      mine_hash fuel 0 ts "genesis" "genesis!" = some (nonce, hash) →
      genesisOp fuel ts blocks =
        some (Except.ok (), [⟨0, hash, "genesis", ts, "genesis!", nonce⟩]) ∧
      hash = calculate_hash 0 ts "genesis" "genesis!" nonce ∧
      ∃ bin, binary_string_of hash = some bin ∧ strStartsWith bin DIFFICULTY = true) := by
  constructor
  · intro hne
    unfold genesisOp
    rw [if_pos (List.length_pos.mpr hne)]
  · rintro rfl nonce hash hm
    refine ⟨?_, mineFrom_some fuel 0 nonce hash 0 ts "genesis" "genesis!" hm⟩
    unfold genesisOp
    rw [if_neg (by simp), hm]
    rfl

/-- Witness for C6: mining genesis at timestamp 1643224176 succeeds with
nonce 31, and genesis on the empty chain appends that block. -/
theorem genesis_spec_witness :
    mine_hash 32 0 1643224176 "genesis" "genesis!" =
      some (31, "00008b68c4158cfd8b429b28482c33dd311f7db6f265f2e1cd4f9b19e40bc05f") ∧
    genesisOp 32 1643224176 [] =
      some (Except.ok (),
        [⟨0, "00008b68c4158cfd8b429b28482c33dd311f7db6f265f2e1cd4f9b19e40bc05f", "genesis",
          1643224176, "genesis!", 31⟩]) := by
  have hm : mine_hash 32 0 1643224176 "genesis" "genesis!" =
      some (31, "00008b68c4158cfd8b429b28482c33dd311f7db6f265f2e1cd4f9b19e40bc05f") := by rfl
  exact ⟨hm, ((genesis_spec 32 1643224176 []).2 rfl 31 _ hm).1⟩

end SimpleBlockchain
